import Mathlib

/-!
Verification of the Synth-ID image degradation pipeline, a shallow embedding of
`src/main/src/main.rs`.

Modelling conventions:
* `u8` channel values are `ℕ` (the range invariant `≤ 255` is stated as `wfRange`).
* `u32` coordinates are `ℕ`; the single wrapping subtraction `x.wrapping_sub(1)`
  in the dither loop is modelled exactly as arithmetic modulo `2^32` (`wsub1`).
* `f32`/`f64` intermediate arithmetic is modelled by exact rational arithmetic
  (`ℚ`).  All concrete inputs used in witnesses and counterexamples below are
  chosen so that the `f32`/`f64` computation of the source is exact (the values
  involved, such as `255`, `127.5`, `85`, error fractions over `16`, are
  dyadic-exact or the rounding steps are far from decision boundaries), so the
  rational model and the floating execution agree on every stored value.
* Rust `f32::round` rounds half away from zero (`qround`); `expr as u8` after a
  `clamp(0.0, 255.0)` truncates toward zero, i.e. takes the floor of a
  non-negative value (`u8cast`).
* The image codec, CLI parsing and the resize/blur filters are external
  collaborators; the degrader is an opaque function parameter of `run`.
-/

namespace SynthID

/- Batteries marks the arithmetic of `Rat` irreducible; concrete evaluation of
the model (for witnesses and counterexamples) needs it unfolded. -/
attribute [local semireducible] Rat.mul Rat.inv Rat.add Rat.sub

/-- Rust `f32::clamp(0.0, 255.0)` on an exact rational value. -/
def clampQ (q : ℚ) : ℚ := max 0 (min q 255)

/-- Rust `as u8` applied to an already-clamped non-negative float:
truncation toward zero, i.e. the floor, sent back into `ℕ`. -/
def u8cast (q : ℚ) : ℕ := (⌊q⌋).toNat

/-- Rust `f32::round`: round half away from zero. -/
def qround (q : ℚ) : ℤ := if 0 ≤ q then ⌊q + 1/2⌋ else -⌊-q + 1/2⌋

/-- One 3-channel 8-bit pixel of the `image::Rgb<u8>` buffer. -/
structure Pixel where
  r : ℕ
  g : ℕ
  b : ℕ
  deriving DecidableEq

/-- The `ImageBuffer<Rgb<u8>, Vec<u8>>` collaborator: dimensions plus a dense
row-major list of pixels, index of `(x, y)` being `y * width + x`. -/
structure PixelGrid where
  width : ℕ
  height : ℕ
  data : List Pixel
  deriving DecidableEq

/-- `img.get_pixel(x, y)` (in-bounds in every call site of the source). -/
def PixelGrid.get (g : PixelGrid) (x y : ℕ) : Pixel :=
  g.data.getD (y * g.width + x) ⟨0, 0, 0⟩

/-- `img.put_pixel(x, y, p)` (in-bounds in every call site of the source). -/
def PixelGrid.put (g : PixelGrid) (x y : ℕ) (p : Pixel) : PixelGrid :=
  ⟨g.width, g.height, g.data.set (y * g.width + x) p⟩

/-- The `u8` typing invariant of the Rust buffer: every stored channel is in
`[0, 255]`. -/
def wfRange (g : PixelGrid) : Prop :=
  ∀ p ∈ g.data, p.r ≤ 255 ∧ p.g ≤ 255 ∧ p.b ≤ 255

/-- The buffer holds exactly `width * height` pixels. -/
def wfDims (g : PixelGrid) : Prop :=
  g.data.length = g.width * g.height

instance (g : PixelGrid) : Decidable (wfRange g) := by
  unfold wfRange
  infer_instance

instance (g : PixelGrid) : Decidable (wfDims g) := by
  unfold wfDims
  infer_instance

/-- `|a - b|` of two channel values (the source computes it on `i16`, which is
exact for channel values). -/
def diffN (a b : ℕ) : ℕ := max a b - min a b

/-- One pixel violates the grayscale tolerance:
`(r-g).abs() > tol || (g-b).abs() > tol || (b-r).abs() > tol`. -/
def pixelColored (tol : ℕ) (p : Pixel) : Bool :=
  decide (tol < diffN p.r p.g) || decide (tol < diffN p.g p.b) ||
    decide (tol < diffN p.b p.r)

/-- The grayscale detection loop of the threshold branch: scan all pixels,
short-circuiting on the first violation. -/
def is_grayscale (g : PixelGrid) (tol : ℕ) : Bool :=
  ! g.data.any (pixelColored tol)

/-- `(r * 299 + g * 587 + b * 114) / 1000` on `u32`: Rec. 601 luma with
truncating integer division. -/
def lumaOf (p : Pixel) : ℕ := (p.r * 299 + p.g * 587 + p.b * 114) / 1000

/-- The per-pixel body of the threshold loop:
`if luma > threshold { white } else { black }`. -/
def thresholdPixel (t : ℕ) (p : Pixel) : Pixel :=
  if t < lumaOf p then ⟨255, 255, 255⟩ else ⟨0, 0, 0⟩

/-- The whole threshold pass (`for pixel in img.pixels_mut()`). -/
def apply_threshold (g : PixelGrid) (t : ℕ) : PixelGrid :=
  ⟨g.width, g.height, g.data.map (thresholdPixel t)⟩

/-- `step = 255.0 / (levels - 1.0)`.  For `levels = 1` the source divides by
zero in `f32`, giving `step = +∞`; the rational model gives `0` by the
division-by-zero convention.  Both make every quantized stored value `0`
(`NaN as u8 = 0` in Rust), which is what the `levels = 1` counterexample below
uses, on a 1-by-1 grid so that no other value is ever consulted. -/
def quantStep (levels : ℕ) : ℚ := 255 / ((levels : ℚ) - 1)

/-- The per-channel quantization `(old / step).round() * step`, clamped and
cast: the value actually stored at the visited pixel. -/
def quantCh (levels : ℕ) (v : ℕ) : ℕ :=
  u8cast (clampQ ((qround ((v : ℚ) / quantStep levels) : ℚ) * quantStep levels))

/-- All three channels quantized independently. -/
def quantizePixel (levels : ℕ) (p : Pixel) : Pixel :=
  ⟨quantCh levels p.r, quantCh levels p.g, quantCh levels p.b⟩

/-- `2^32`, the modulus of `u32` arithmetic. -/
def U32MOD : ℕ := 4294967296

/-- `x.wrapping_sub(1)` on `u32`, modelled exactly: add `2^32 - 1` modulo
`2^32`.  At `x = 0` this is `2^32 - 1`, which the bounds check of
`distribute` then rejects. -/
def wsub1 (x : ℕ) : ℕ := (x + (U32MOD - 1)) % U32MOD

/-- The `distribute` closure of the dither loop: if `(x, y)` is in bounds, add
`err * factor` to each channel, clamp, cast, and write back; otherwise do
nothing. -/
def distribute (g : PixelGrid) (errR errG errB : ℚ) (x y : ℕ) (factor : ℚ) :
    PixelGrid :=
  if x < g.width ∧ y < g.height then
    let p := g.get x y
    g.put x y
      ⟨u8cast (clampQ ((p.r : ℚ) + errR * factor)),
       u8cast (clampQ ((p.g : ℚ) + errG * factor)),
       u8cast (clampQ ((p.b : ℚ) + errB * factor))⟩
  else g

/-- The body of the dither double loop at pixel `(x, y)`: quantize in place,
then distribute the quantization error to the four Floyd-Steinberg
neighbors with weights `7/16`, `3/16`, `5/16`, `1/16`. -/
def ditherStep (levels : ℕ) (g : PixelGrid) (x y : ℕ) : PixelGrid :=
  let p := g.get x y
  let oldR : ℚ := p.r
  let oldG : ℚ := p.g
  let oldB : ℚ := p.b
  let newR : ℚ := (qround (oldR / quantStep levels) : ℚ) * quantStep levels
  let newG : ℚ := (qround (oldG / quantStep levels) : ℚ) * quantStep levels
  let newB : ℚ := (qround (oldB / quantStep levels) : ℚ) * quantStep levels
  let g1 := g.put x y ⟨u8cast (clampQ newR), u8cast (clampQ newG), u8cast (clampQ newB)⟩
  let errR := oldR - newR
  let errG := oldG - newG
  let errB := oldB - newB
  let g2 := distribute g1 errR errG errB (x + 1) y (7/16)
  let g3 := distribute g2 errR errG errB (wsub1 x) (y + 1) (3/16)
  let g4 := distribute g3 errR errG errB x (y + 1) (5/16)
  distribute g4 errR errG errB (x + 1) (y + 1) (1/16)

/-- The row-major scan order of the dither loop: `for y in 0..h, for x in
0..w`. -/
def scanCoords (w h : ℕ) : List (ℕ × ℕ) :=
  ((List.range h).map (fun y => (List.range w).map (fun x => (x, y)))).flatten

/-- Folding the dither body over an explicit coordinate list (prefixes of the
scan order are the intermediate states of the pass). -/
def dither_fold (levels : ℕ) (cs : List (ℕ × ℕ)) (g : PixelGrid) : PixelGrid :=
  cs.foldl (fun g c => ditherStep levels g c.1 c.2) g

/-- The whole Floyd-Steinberg dither pass of the destructive branch. -/
def apply_dither (g : PixelGrid) (levels : ℕ) : PixelGrid :=
  dither_fold levels (scanCoords g.width g.height) g

/-- One noisy channel: `(v + draw).clamp(0.0, 255.0) as u8` where
`draw = mean + sigma * z = sigma * z` is the `Normal(0, sigma)` sample,
`z` the underlying standard-normal draw. -/
def noiseCh (sigma : ℚ) (v : ℕ) (z : ℚ) : ℕ :=
  u8cast (clampQ ((v : ℚ) + sigma * z))

/-- The noise loop over `enumerate_pixels` (row-major index `i`), three
independent draws per pixel, writing a fresh output buffer of the same
dimensions.  `z` is the stream of standard-normal draws in program order. -/
def apply_noise (g : PixelGrid) (sigma : ℚ) (z : ℕ → ℚ) : PixelGrid :=
  ⟨g.width, g.height,
    (List.range (g.width * g.height)).map (fun i =>
      let p := g.data.getD i ⟨0, 0, 0⟩
      ⟨noiseCh sigma p.r (z (3 * i)),
       noiseCh sigma p.g (z (3 * i + 1)),
       noiseCh sigma p.b (z (3 * i + 2))⟩)⟩

/-- The clap-parsed command-line arguments relevant to the pipeline. -/
structure Args where
  sigma : ℚ
  aggressive : Bool
  blur_sigma : ℚ
  resize_scale : ℚ
  destructive : Bool
  levels : ℕ
  threshold_mode : Bool
  threshold : ℕ
  force_bw : Bool
  deriving DecidableEq

/-- The rejection message of the grayscale guard in the threshold branch. -/
def grayRejectMsg : String := "Image appears to be color. Use --force-bw to proceed."

/-- Stands for the error `rand_distr::Normal::new` returns for a negative
standard deviation, propagated by the `?` on line 166 of the source (the
exact display text belongs to the external library). -/
def sigmaRejectMsg : String := "invalid standard deviation for Normal"

/-- The `main` pipeline between decode and encode.  `degrade` is the opaque
external resize-resize-blur collaborator of the aggressive branch, receiving
`resize_scale` and `blur_sigma`.  Control flow of the source: the threshold
branch returns early (skipping everything else); otherwise the destructive
branch, else the aggressive branch, runs, and noise injection always follows,
after `Normal::new` has validated `sigma`. -/
def run (degrade : ℚ → ℚ → PixelGrid → PixelGrid) (args : Args)
    (img : PixelGrid) (z : ℕ → ℚ) : Except String PixelGrid :=
  if args.threshold_mode then
    if args.force_bw = false ∧ is_grayscale img 30 = false then
      Except.error grayRejectMsg
    else
      Except.ok (apply_threshold img args.threshold)
  else
    let img1 :=
      if args.destructive then apply_dither img args.levels
      else if args.aggressive then degrade args.resize_scale args.blur_sigma img
      else img
    if args.sigma < 0 then Except.error sigmaRejectMsg
    else Except.ok (apply_noise img1 args.sigma z)

/-- The identity degrader, used to instantiate the opaque collaborator in
concrete computations. -/
def idDegrade : ℚ → ℚ → PixelGrid → PixelGrid := fun _ _ g => g

/-- A degrader that ignores its input, used to show the aggressive branch is
never consulted when the destructive branch runs. -/
def constWhiteDegrade : ℚ → ℚ → PixelGrid → PixelGrid := fun _ _ _ => ⟨1, 1, [⟨255, 255, 255⟩]⟩

/-- 1-by-1 mid-gray grid. -/
def g100 : PixelGrid := ⟨1, 1, [⟨100, 100, 100⟩]⟩

/-- 1-by-1 light-gray grid (the spec's hand-computable dither scenario value). -/
def g200 : PixelGrid := ⟨1, 1, [⟨200, 200, 200⟩]⟩

/-- 1-by-1 all-black grid. -/
def gZero : PixelGrid := ⟨1, 1, [⟨0, 0, 0⟩]⟩

/-- 1-by-1 all-white grid. -/
def gWhite : PixelGrid := ⟨1, 1, [⟨255, 255, 255⟩]⟩

/-- 1-by-1 grid whose pixel has luma exactly 128. -/
def gGray128 : PixelGrid := ⟨1, 1, [⟨128, 128, 128⟩]⟩

/-- 1-by-1 saturated-red grid (clearly colored). -/
def gRed : PixelGrid := ⟨1, 1, [⟨255, 0, 0⟩]⟩

/-- 1-by-1 grid with `|r - g| = 31`, one over the tolerance. -/
def gC31 : PixelGrid := ⟨1, 1, [⟨31, 0, 0⟩]⟩

/-- Two-pixel grid, and the same grid with the scan order reversed. -/
def gPerm1 : PixelGrid := ⟨2, 1, [⟨1, 2, 3⟩, ⟨4, 5, 6⟩]⟩

/-- The pixels of `gPerm1` in the opposite order. -/
def gPerm2 : PixelGrid := ⟨2, 1, [⟨4, 5, 6⟩, ⟨1, 2, 3⟩]⟩

/-- CLI arguments selecting destructive mode with the given levels, all other
fields at their clap defaults. -/
def argsDither (levels : ℕ) : Args := ⟨30, false, 1, 9/10, true, levels, false, 128, false⟩

/-- CLI arguments selecting plain noise mode with the given sigma. -/
def argsNoise (sigma : ℚ) : Args := ⟨sigma, false, 1, 9/10, false, 4, false, 128, false⟩

/-- CLI arguments selecting threshold mode without the force flag. -/
def argsBW : Args := ⟨30, false, 1, 9/10, false, 4, true, 128, false⟩

/-- CLI arguments with both the destructive and the aggressive flag set. -/
def argsBoth : Args := ⟨30, true, 1, 9/10, true, 2, false, 128, false⟩

/-- A constant stream of standard-normal draws. -/
def zConst (c : ℚ) : ℕ → ℚ := fun _ => c

/-! ## Basic facts about the grid operations -/

theorem getD_set_ne (l : List Pixel) (i j : ℕ) (v d : Pixel) (h : i ≠ j) :
    (l.set i v).getD j d = l.getD j d := by
  simp [List.getD_eq_getD_get?, List.get?_eq_getElem?, List.getElem?_set_ne h]

theorem getD_set_self (l : List Pixel) (i : ℕ) (v d : Pixel) (h : i < l.length) :
    (l.set i v).getD i d = v := by
  simp [List.getD_eq_getD_get?, List.get?_eq_getElem?, List.getElem?_set_self h]

@[simp] theorem put_width (g : PixelGrid) (x y : ℕ) (p : Pixel) :
    (g.put x y p).width = g.width := rfl

@[simp] theorem put_height (g : PixelGrid) (x y : ℕ) (p : Pixel) :
    (g.put x y p).height = g.height := rfl

@[simp] theorem put_length (g : PixelGrid) (x y : ℕ) (p : Pixel) :
    (g.put x y p).data.length = g.data.length := List.length_set ..

@[simp] theorem distribute_width (g : PixelGrid) (eR eG eB : ℚ) (x y : ℕ) (f : ℚ) :
    (distribute g eR eG eB x y f).width = g.width := by
  unfold distribute; split <;> rfl

@[simp] theorem distribute_height (g : PixelGrid) (eR eG eB : ℚ) (x y : ℕ) (f : ℚ) :
    (distribute g eR eG eB x y f).height = g.height := by
  unfold distribute; split <;> rfl

@[simp] theorem distribute_length (g : PixelGrid) (eR eG eB : ℚ) (x y : ℕ) (f : ℚ) :
    (distribute g eR eG eB x y f).data.length = g.data.length := by
  unfold distribute; split <;> simp

@[simp] theorem ditherStep_width (levels : ℕ) (g : PixelGrid) (x y : ℕ) :
    (ditherStep levels g x y).width = g.width := by
  simp [ditherStep]

@[simp] theorem ditherStep_height (levels : ℕ) (g : PixelGrid) (x y : ℕ) :
    (ditherStep levels g x y).height = g.height := by
  simp [ditherStep]

@[simp] theorem ditherStep_length (levels : ℕ) (g : PixelGrid) (x y : ℕ) :
    (ditherStep levels g x y).data.length = g.data.length := by
  simp [ditherStep]

@[simp] theorem dither_fold_nil (levels : ℕ) (g : PixelGrid) :
    dither_fold levels [] g = g := rfl

@[simp] theorem dither_fold_cons (levels : ℕ) (a : ℕ × ℕ) (cs : List (ℕ × ℕ))
    (g : PixelGrid) :
    dither_fold levels (a :: cs) g = dither_fold levels cs (ditherStep levels g a.1 a.2) := rfl

theorem dither_fold_width (levels : ℕ) (cs : List (ℕ × ℕ)) :
    ∀ g : PixelGrid, (dither_fold levels cs g).width = g.width := by
  induction cs with
  | nil => intro g; rfl
  | cons a cs ih => intro g; rw [dither_fold_cons, ih, ditherStep_width]

theorem dither_fold_height (levels : ℕ) (cs : List (ℕ × ℕ)) :
    ∀ g : PixelGrid, (dither_fold levels cs g).height = g.height := by
  induction cs with
  | nil => intro g; rfl
  | cons a cs ih => intro g; rw [dither_fold_cons, ih, ditherStep_height]

theorem dither_fold_length (levels : ℕ) (cs : List (ℕ × ℕ)) :
    ∀ g : PixelGrid, (dither_fold levels cs g).data.length = g.data.length := by
  induction cs with
  | nil => intro g; rfl
  | cons a cs ih => intro g; rw [dither_fold_cons, ih, ditherStep_length]

/-! ## Range invariant (claim C8 infrastructure) -/

theorem u8cast_clampQ_le (q : ℚ) : u8cast (clampQ q) ≤ 255 := by
  have h1 : clampQ q ≤ 255 := max_le (by norm_num) (min_le_right _ _)
  have h2 : (⌊clampQ q⌋ : ℤ) ≤ 255 := by
    calc ⌊clampQ q⌋ ≤ ⌊(255 : ℚ)⌋ := Int.floor_le_floor h1
    _ = 255 := by norm_num
  exact Int.toNat_le.mpr h2

theorem wfRange_put (g : PixelGrid) (x y : ℕ) (p : Pixel) (hg : wfRange g)
    (hp : p.r ≤ 255 ∧ p.g ≤ 255 ∧ p.b ≤ 255) : wfRange (g.put x y p) := by
  intro q hq
  rcases List.mem_or_eq_of_mem_set hq with h | h
  · exact hg q h
  · subst h; exact hp

theorem wfRange_distribute (g : PixelGrid) (eR eG eB : ℚ) (x y : ℕ) (f : ℚ)
    (hg : wfRange g) : wfRange (distribute g eR eG eB x y f) := by
  unfold distribute
  split
  · exact wfRange_put _ _ _ _ hg
      ⟨u8cast_clampQ_le _, u8cast_clampQ_le _, u8cast_clampQ_le _⟩
  · exact hg

theorem wfRange_ditherStep (levels : ℕ) (g : PixelGrid) (x y : ℕ)
    (hg : wfRange g) : wfRange (ditherStep levels g x y) := by
  simp only [ditherStep]
  apply wfRange_distribute
  apply wfRange_distribute
  apply wfRange_distribute
  apply wfRange_distribute
  exact wfRange_put _ _ _ _ hg
    ⟨u8cast_clampQ_le _, u8cast_clampQ_le _, u8cast_clampQ_le _⟩

theorem wfRange_dither_fold (levels : ℕ) (cs : List (ℕ × ℕ)) :
    ∀ g : PixelGrid, wfRange g → wfRange (dither_fold levels cs g) := by
  induction cs with
  | nil => intro g hg; exact hg
  | cons a cs ih =>
    intro g hg
    rw [dither_fold_cons]
    exact ih _ (wfRange_ditherStep levels g a.1 a.2 hg)

theorem wfRange_apply_threshold (g : PixelGrid) (t : ℕ) :
    wfRange (apply_threshold g t) := by
  intro p hp
  rcases List.mem_map.mp hp with ⟨q, _, hq⟩
  unfold thresholdPixel at hq
  split at hq <;> simp [← hq]

theorem wfRange_apply_noise (g : PixelGrid) (sigma : ℚ) (z : ℕ → ℚ) :
    wfRange (apply_noise g sigma z) := by
  intro p hp
  rcases List.mem_map.mp hp with ⟨i, _, hq⟩
  simp only [← hq]
  exact ⟨u8cast_clampQ_le _, u8cast_clampQ_le _, u8cast_clampQ_le _⟩

/-! ## Threshold lemmas -/

theorem lumaOf_le (p : Pixel) (hp : p.r ≤ 255 ∧ p.g ≤ 255 ∧ p.b ≤ 255) :
    lumaOf p ≤ 255 := by
  unfold lumaOf
  have h : p.r * 299 + p.g * 587 + p.b * 114 ≤ 255000 := by omega
  calc (p.r * 299 + p.g * 587 + p.b * 114) / 1000 ≤ 255000 / 1000 :=
    Nat.div_le_div_right h
  _ = 255 := by norm_num

theorem thresholdPixel_idem (t : ℕ) (p : Pixel)
    (hp : p.r ≤ 255 ∧ p.g ≤ 255 ∧ p.b ≤ 255) :
    thresholdPixel t (thresholdPixel t p) = thresholdPixel t p := by
  unfold thresholdPixel
  split
  next h =>
    rw [if_pos]
    have h255 : lumaOf (⟨255, 255, 255⟩ : Pixel) = 255 := by decide
    rw [h255]
    exact lt_of_lt_of_le h (lumaOf_le p hp)
  next h =>
    rw [if_neg]
    have h0 : lumaOf (⟨0, 0, 0⟩ : Pixel) = 0 := by decide
    rw [h0]
    omega

/-! ## Noise lemmas -/

theorem clampQ_natCast (v : ℕ) (hv : v ≤ 255) : clampQ (v : ℚ) = v := by
  unfold clampQ
  rw [min_eq_left (by exact_mod_cast hv), max_eq_right (by positivity)]

theorem u8cast_natCast (v : ℕ) : u8cast (v : ℚ) = v := by
  unfold u8cast
  rw [Int.floor_natCast, Int.toNat_natCast]

theorem noiseCh_zero (v : ℕ) (hv : v ≤ 255) (zz : ℚ) : noiseCh 0 v zz = v := by
  unfold noiseCh
  rw [zero_mul, add_zero, clampQ_natCast v hv, u8cast_natCast]

theorem range_map_getD (l : List Pixel) :
    (List.range l.length).map (fun i => l.getD i ⟨0, 0, 0⟩) = l := by
  induction l with
  | nil => rfl
  | cons a t ih =>
    rw [List.length_cons, List.range_succ_eq_map, List.map_cons, List.map_map]
    simp only [Function.comp_def, List.getD_cons_succ, List.getD_cons_zero]
    rw [ih]

/-! ## Grayscale classifier lemmas -/

theorem is_grayscale_iff (g : PixelGrid) (tol : ℕ) :
    is_grayscale g tol = true ↔
      ∀ p ∈ g.data, diffN p.r p.g ≤ tol ∧ diffN p.g p.b ≤ tol ∧ diffN p.b p.r ≤ tol := by
  simp only [is_grayscale, Bool.not_eq_true', List.any_eq_false, pixelColored,
    Bool.or_eq_true, decide_eq_true_eq]
  constructor
  · intro h p hp
    have := h p hp
    push_neg at this
    omega
  · intro h p hp
    have := h p hp
    push_neg
    omega

theorem is_grayscale_eq_false_iff (g : PixelGrid) (tol : ℕ) :
    is_grayscale g tol = false ↔
      ∃ p ∈ g.data, tol < diffN p.r p.g ∨ tol < diffN p.g p.b ∨ tol < diffN p.b p.r := by
  simp only [is_grayscale, Bool.not_eq_false', List.any_eq_true, pixelColored,
    Bool.or_eq_true, decide_eq_true_eq, or_assoc]

theorem perm_any_eq (l1 l2 : List Pixel) (f : Pixel → Bool) (h : l1.Perm l2) :
    l1.any f = l2.any f := by
  cases hb : l2.any f with
  | true =>
    rcases List.any_eq_true.mp hb with ⟨x, hx, hfx⟩
    exact List.any_eq_true.mpr ⟨x, h.mem_iff.mpr hx, hfx⟩
  | false =>
    rw [List.any_eq_false] at hb ⊢
    intro x hx
    exact hb x (h.mem_iff.mp hx)

/-! ## Positional analysis of the dither pass

Every write performed while visiting pixel `(x, y)` lands at a row-major
index at least `y * width + x`; the quantization write lands exactly there
and the error-diffusion writes strictly later.  Hence the final value of
every pixel is the quantization write of its own visit. -/

theorem getD_put_ne (g : PixelGrid) (x y j : ℕ) (p d : Pixel)
    (h : y * g.width + x ≠ j) :
    (g.put x y p).data.getD j d = g.data.getD j d :=
  getD_set_ne _ _ _ _ _ h

theorem getD_put_self (g : PixelGrid) (x y : ℕ) (p d : Pixel)
    (h : y * g.width + x < g.data.length) :
    (g.put x y p).data.getD (y * g.width + x) d = p :=
  getD_set_self _ _ _ _ h

theorem distribute_getD_untouched (g : PixelGrid) (eR eG eB : ℚ) (x y : ℕ)
    (f : ℚ) (j : ℕ) (d : Pixel)
    (h : x < g.width → y < g.height → y * g.width + x ≠ j) :
    (distribute g eR eG eB x y f).data.getD j d = g.data.getD j d := by
  unfold distribute
  split
  next hin => exact getD_put_ne _ _ _ _ _ _ (h hin.1 hin.2)
  next => rfl

theorem pos_lt_next_row (W x y c : ℕ) (hx : x < W) :
    y * W + x < (y + 1) * W + c := by
  have h : (y + 1) * W = y * W + W := by ring
  linarith

theorem ditherStep_getD_lt (levels : ℕ) (g : PixelGrid) (x y j : ℕ) (d : Pixel)
    (hx : x < g.width) (hj : j < y * g.width + x) :
    (ditherStep levels g x y).data.getD j d = g.data.getD j d := by
  simp only [ditherStep]
  rw [distribute_getD_untouched, distribute_getD_untouched, distribute_getD_untouched,
    distribute_getD_untouched, getD_put_ne]
  all_goals try simp only [distribute_width, distribute_height, put_width, put_height]
  all_goals try intro h1 h2
  all_goals apply ne_of_gt
  · exact hj
  · exact Nat.lt_succ_of_lt hj
  · exact lt_trans hj (pos_lt_next_row _ _ _ _ hx)
  · exact lt_trans hj (pos_lt_next_row _ _ _ _ hx)
  · exact lt_trans hj (pos_lt_next_row _ _ _ _ hx)

theorem ditherStep_getD_self (levels : ℕ) (g : PixelGrid) (x y : ℕ)
    (hx : x < g.width) (hlen : y * g.width + x < g.data.length) :
    (ditherStep levels g x y).data.getD (y * g.width + x) ⟨0, 0, 0⟩ =
      quantizePixel levels (g.get x y) := by
  simp only [ditherStep]
  rw [distribute_getD_untouched, distribute_getD_untouched, distribute_getD_untouched,
    distribute_getD_untouched, getD_put_self _ _ _ _ _ hlen]
  · rfl
  all_goals try simp only [distribute_width, distribute_height, put_width, put_height]
  all_goals try intro h1 h2
  all_goals apply ne_of_gt
  · exact Nat.lt_succ_self _
  · exact pos_lt_next_row _ _ _ _ hx
  · exact pos_lt_next_row _ _ _ _ hx
  · exact pos_lt_next_row _ _ _ _ hx

theorem dither_fold_getD_untouched (levels : ℕ) (cs : List (ℕ × ℕ)) :
    ∀ (g : PixelGrid) (j : ℕ) (d : Pixel),
      (∀ c ∈ cs, c.1 < g.width ∧ j < c.2 * g.width + c.1) →
      (dither_fold levels cs g).data.getD j d = g.data.getD j d := by
  induction cs with
  | nil => intro g j d _; rfl
  | cons a cs ih =>
    intro g j d h
    have ha := h a (List.mem_cons_self a cs)
    rw [dither_fold_cons,
      ih (ditherStep levels g a.1 a.2) j d
        (fun c hc => by simpa [ditherStep_width] using h c (List.mem_cons_of_mem a hc)),
      ditherStep_getD_lt levels g a.1 a.2 j d ha.1 ha.2]

/-! ## The quantization alphabet -/

theorem quantCh_mem_alphabet (N v : ℕ) (hN : 2 ≤ N) (hv : v ≤ 255) :
    ∃ k, k ≤ N - 1 ∧ quantCh N v = k * 255 / (N - 1) := by
  have h2 : (2 : ℚ) ≤ (N : ℚ) := by exact_mod_cast hN
  have hd0 : (0 : ℚ) < (N : ℚ) - 1 := by linarith
  have hs0 : 0 < quantStep N := div_pos (by norm_num) hd0
  have h255 : ((N : ℚ) - 1) * quantStep N = 255 := by
    unfold quantStep
    field_simp
  have hq0 : (0 : ℚ) ≤ (v : ℚ) / quantStep N := div_nonneg (Nat.cast_nonneg v) hs0.le
  have hub : (v : ℚ) / quantStep N ≤ (N : ℚ) - 1 := by
    rw [div_le_iff₀ hs0]
    calc (v : ℚ) ≤ 255 := by exact_mod_cast hv
    _ = ((N : ℚ) - 1) * quantStep N := h255.symm
  set k' : ℤ := ⌊(v : ℚ) / quantStep N + 1/2⌋ with hk'
  have hround : qround ((v : ℚ) / quantStep N) = k' := by
    unfold qround
    rw [if_pos hq0]
  have hk'0 : 0 ≤ k' := Int.floor_nonneg.mpr (by linarith)
  have hk'ub : k' ≤ (N : ℤ) - 1 := by
    have hlt : (v : ℚ) / quantStep N + 1/2 < ((N : ℤ) : ℚ) := by push_cast; linarith
    have hfl := Int.floor_lt.mpr hlt
    omega
  refine ⟨k'.toNat, by omega, ?_⟩
  have hkQ : ((k'.toNat : ℕ) : ℚ) = ((k' : ℤ) : ℚ) := by
    exact_mod_cast congrArg (fun z : ℤ => z) (Int.toNat_of_nonneg hk'0)
  have hkle : ((k'.toNat : ℕ) : ℚ) ≤ (N : ℚ) - 1 := by
    rw [hkQ]
    have hc : ((k' : ℤ) : ℚ) ≤ (((N : ℤ) - 1 : ℤ) : ℚ) := by exact_mod_cast hk'ub
    push_cast at hc
    linarith
  have hnn : (0 : ℚ) ≤ ((k'.toNat : ℕ) : ℚ) * quantStep N :=
    mul_nonneg (Nat.cast_nonneg _) hs0.le
  have hle255 : ((k'.toNat : ℕ) : ℚ) * quantStep N ≤ 255 := by
    calc ((k'.toNat : ℕ) : ℚ) * quantStep N ≤ ((N : ℚ) - 1) * quantStep N :=
      mul_le_mul_of_nonneg_right hkle hs0.le
    _ = 255 := h255
  unfold quantCh
  rw [hround, ← hkQ]
  unfold clampQ
  rw [min_eq_left hle255, max_eq_right hnn]
  have hrw : ((k'.toNat : ℕ) : ℚ) * quantStep N =
      ((k'.toNat * 255 : ℕ) : ℚ) / ((N - 1 : ℕ) : ℚ) := by
    unfold quantStep
    push_cast [Nat.cast_sub (by omega : 1 ≤ N)]
    ring
  rw [hrw]
  unfold u8cast
  rw [Int.floor_toNat, Nat.floor_div_nat, Nat.floor_natCast]

/-! ## The scan order as a sorted list of row-major positions -/

theorem scanCoords_eq (w : ℕ) (hw : 0 < w) :
    ∀ h : ℕ, scanCoords w h = (List.range (w * h)).map (fun i => (i % w, i / w)) := by
  intro h
  induction h with
  | zero => simp [scanCoords]
  | succ n ih =>
    unfold scanCoords at ih ⊢
    rw [List.range_succ, List.map_append, List.flatten_append, ih,
      Nat.mul_succ, List.range_add, List.map_append]
    congr 1
    simp only [List.map_cons, List.map_nil, List.flatten_cons, List.flatten_nil,
      List.append_nil, List.map_map]
    apply List.map_congr_left
    intro x hx
    have hxw : x < w := List.mem_range.mp hx
    simp only [Function.comp_apply]
    have hmod : (w * n + x) % w = x := by
      rw [Nat.add_comm, Nat.add_mul_mod_self_left, Nat.mod_eq_of_lt hxw]
    have hdiv : (w * n + x) / w = n := by
      rw [Nat.add_comm, Nat.add_mul_div_left x n hw, Nat.div_eq_of_lt hxw]
      omega
    rw [hmod, hdiv]

theorem scanCoords_bounds (w h : ℕ) (hw : 0 < w) :
    ∀ c ∈ scanCoords w h, c.1 < w := by
  rw [scanCoords_eq w hw h]
  intro c hc
  rcases List.mem_map.mp hc with ⟨i, _, hci⟩
  rw [← hci]
  exact Nat.mod_lt i hw

theorem scanCoords_pos (w : ℕ) (i : ℕ) : (i / w) * w + i % w = i := by
  rw [Nat.mul_comm]
  exact Nat.div_add_mod i w

theorem scanCoords_pairwise (w h : ℕ) (hw : 0 < w) :
    (scanCoords w h).Pairwise (fun a b => a.2 * w + a.1 < b.2 * w + b.1) := by
  rw [scanCoords_eq w hw h, List.pairwise_map]
  refine List.Pairwise.imp ?_ (List.pairwise_lt_range (w * h))
  intro a b hab
  simpa [scanCoords_pos] using hab

theorem scanCoords_mem (w h i : ℕ) (hi : i < w * h) :
    (i % w, i / w) ∈ scanCoords w h := by
  have hw : 0 < w := by
    rcases Nat.eq_zero_or_pos w with h0 | h0
    · rw [h0, Nat.zero_mul] at hi
      omega
    · exact h0
  rw [scanCoords_eq w hw h]
  exact List.mem_map.mpr ⟨i, List.mem_range.mpr hi, rfl⟩

/-! ## Every pixel of the finished dither pass carries its own quantization -/

theorem dither_fold_quantized (levels : ℕ) (cs : List (ℕ × ℕ)) :
    ∀ (g : PixelGrid), wfRange g →
      (∀ c ∈ cs, c.1 < g.width) →
      cs.Pairwise (fun a b => a.2 * g.width + a.1 < b.2 * g.width + b.1) →
      ∀ c ∈ cs, c.2 * g.width + c.1 < g.data.length →
        ∃ p : Pixel, p.r ≤ 255 ∧ p.g ≤ 255 ∧ p.b ≤ 255 ∧
          (dither_fold levels cs g).data.getD (c.2 * g.width + c.1) ⟨0, 0, 0⟩ =
            quantizePixel levels p := by
  induction cs with
  | nil => intro g _ _ _ c hc; exact absurd hc (List.not_mem_nil c)
  | cons a cs ih =>
    intro g hwf hin hpair c hc hlen
    have hwf1 : wfRange (ditherStep levels g a.1 a.2) :=
      wfRange_ditherStep levels g a.1 a.2 hwf
    rcases List.mem_cons.mp hc with hca | hcs
    · subst hca
      rw [dither_fold_cons]
      rw [dither_fold_getD_untouched levels cs (ditherStep levels g c.1 c.2)
        (c.2 * g.width + c.1) ⟨0, 0, 0⟩ ?hrest]
      case hrest =>
        intro e he
        refine ⟨?_, ?_⟩
        · rw [ditherStep_width]
          exact hin e (List.mem_cons_of_mem c he)
        · rw [ditherStep_width]
          exact (List.pairwise_cons.mp hpair).1 e he
      rw [ditherStep_getD_self levels g c.1 c.2 (hin c (List.mem_cons_self c cs)) hlen]
      have hmem : g.get c.1 c.2 ∈ g.data := by
        unfold PixelGrid.get
        rw [List.getD_eq_getElem _ _ hlen]
        exact List.getElem_mem hlen
      obtain ⟨h1, h2, h3⟩ := hwf _ hmem
      exact ⟨g.get c.1 c.2, h1, h2, h3, rfl⟩
    · rw [dither_fold_cons]
      have hrec := ih (ditherStep levels g a.1 a.2) hwf1
        (fun e he => by rw [ditherStep_width]; exact hin e (List.mem_cons_of_mem a he))
        (by rw [ditherStep_width]; exact (List.pairwise_cons.mp hpair).2)
        c hcs
        (by rw [ditherStep_width, ditherStep_length]; exact hlen)
      rw [ditherStep_width] at hrec
      exact hrec

/-! ## Pipeline control-flow lemmas -/

theorem run_destructive_eq (degrade : ℚ → ℚ → PixelGrid → PixelGrid) (args : Args)
    (g : PixelGrid) (z : ℕ → ℚ) (h1 : args.threshold_mode = false)
    (h2 : args.destructive = true) (h3 : 0 ≤ args.sigma) :
    run degrade args g z =
      Except.ok (apply_noise (apply_dither g args.levels) args.sigma z) := by
  simp [run, h1, h2, not_lt.mpr h3]

/-! ## The claims -/

/-- C3 (amended): after `apply_dither` with `levels = N ≥ 2`, every channel of
every pixel is a member of the truncated alphabet
`{⌊k * 255 / (N - 1)⌋ : k = 0..N-1}` (floor, i.e. the `as u8` truncation of
`k * step`; the claim's round-to-nearest alphabet is refuted by
`C3_counterexample`). -/
theorem C3_dither_alphabet (g : PixelGrid) (N : ℕ) (hN : 2 ≤ N)
    (hwf : wfRange g) (hdims : wfDims g) :
    ∀ p ∈ (apply_dither g N).data,
      (∃ k, k ≤ N - 1 ∧ p.r = k * 255 / (N - 1)) ∧
      (∃ k, k ≤ N - 1 ∧ p.g = k * 255 / (N - 1)) ∧
      (∃ k, k ≤ N - 1 ∧ p.b = k * 255 / (N - 1)) := by
  intro p hp
  rcases List.mem_iff_getElem.mp hp with ⟨i, hi0, hpe⟩
  have hlen : (apply_dither g N).data.length = g.data.length :=
    dither_fold_length N (scanCoords g.width g.height) g
  have hi : i < g.data.length := by rw [← hlen]; exact hi0
  have hiWH : i < g.width * g.height := by rw [← hdims]; exact hi
  have hw : 0 < g.width := by
    rcases Nat.eq_zero_or_pos g.width with h0 | h0
    · rw [h0, Nat.zero_mul] at hiWH
      omega
    · exact h0
  have hpos : (i / g.width) * g.width + i % g.width = i := scanCoords_pos g.width i
  have hc : (i % g.width, i / g.width) ∈ scanCoords g.width g.height :=
    scanCoords_mem _ _ _ hiWH
  have hlt : (i / g.width) * g.width + i % g.width < g.data.length := by
    rw [hpos]
    exact hi
  obtain ⟨q, h1, h2, h3, hq⟩ :=
    dither_fold_quantized N (scanCoords g.width g.height) g hwf
      (scanCoords_bounds _ _ hw) (scanCoords_pairwise _ _ hw) _ hc hlt
  rw [hpos] at hq
  have hget : (apply_dither g N).data.getD i ⟨0, 0, 0⟩ = p := by
    rw [List.getD_eq_getElem _ _ hi0]
    exact hpe
  unfold apply_dither at hget
  rw [hq] at hget
  rw [← hget]
  exact ⟨quantCh_mem_alphabet N q.r hN h1, quantCh_mem_alphabet N q.g hN h2,
    quantCh_mem_alphabet N q.b hN h3⟩

/-- C4: the Thresholder computes `luma = (299*r + 587*g + 114*b) / 1000` with
truncating integer division and sets the pixel to white exactly when
`luma > threshold`, black otherwise; a pixel whose luma equals the threshold
becomes black. -/
theorem C4_threshold_formula (g : PixelGrid) (t i : ℕ) (hi : i < g.data.length) :
    ((apply_threshold g t).data.getD i ⟨0, 0, 0⟩ =
      if t < (299 * (g.data.getD i ⟨0, 0, 0⟩).r + 587 * (g.data.getD i ⟨0, 0, 0⟩).g +
          114 * (g.data.getD i ⟨0, 0, 0⟩).b) / 1000
      then ⟨255, 255, 255⟩ else ⟨0, 0, 0⟩) ∧
    ((299 * (g.data.getD i ⟨0, 0, 0⟩).r + 587 * (g.data.getD i ⟨0, 0, 0⟩).g +
        114 * (g.data.getD i ⟨0, 0, 0⟩).b) / 1000 = t →
      (apply_threshold g t).data.getD i ⟨0, 0, 0⟩ = ⟨0, 0, 0⟩) := by
  have hmap : (apply_threshold g t).data.getD i ⟨0, 0, 0⟩ =
      thresholdPixel t (g.data.getD i ⟨0, 0, 0⟩) := by
    unfold apply_threshold
    have hi2 : i < (g.data.map (thresholdPixel t)).length := by simpa using hi
    rw [List.getD_eq_getElem _ _ hi2, List.getElem_map, ← List.getD_eq_getElem _ _ hi]
  have hluma : lumaOf (g.data.getD i ⟨0, 0, 0⟩) =
      (299 * (g.data.getD i ⟨0, 0, 0⟩).r + 587 * (g.data.getD i ⟨0, 0, 0⟩).g +
        114 * (g.data.getD i ⟨0, 0, 0⟩).b) / 1000 := by
    unfold lumaOf
    congr 1
    ring
  constructor
  · rw [hmap]
    unfold thresholdPixel
    rw [hluma]
  · intro heq
    rw [hmap]
    unfold thresholdPixel
    rw [if_neg]
    rw [hluma, heq]
    exact lt_irrefl t

/-- C5: with `force = false`, thresholding fails with the not-grayscale
rejection (and performs no mutation) exactly when some pixel has a pairwise
channel difference exceeding the tolerance 30; an `r = g = b` grid is always
accepted; a pixel with `|r - g| = tolerance + 1` forces rejection; and the
classification does not depend on scan order. -/
theorem C5_grayscale_guard (g : PixelGrid) (tol : ℕ)
    (degrade : ℚ → ℚ → PixelGrid → PixelGrid) (args : Args) (z : ℕ → ℚ) :
    (args.threshold_mode = true → args.force_bw = false →
      (run degrade args g z = Except.error grayRejectMsg ↔
        ∃ p ∈ g.data, 30 < diffN p.r p.g ∨ 30 < diffN p.g p.b ∨ 30 < diffN p.b p.r)) ∧
    ((∀ p ∈ g.data, p.r = p.g ∧ p.g = p.b) → is_grayscale g tol = true) ∧
    (∀ p ∈ g.data, diffN p.r p.g = tol + 1 → is_grayscale g tol = false) ∧
    (∀ g2 : PixelGrid, g.data.Perm g2.data → is_grayscale g tol = is_grayscale g2 tol) := by
  refine ⟨?_, ?_, ?_, ?_⟩
  · intro ht hf
    rw [← is_grayscale_eq_false_iff]
    constructor
    · intro hrun
      cases hb : is_grayscale g 30 with
      | false => rfl
      | true => simp [run, ht, hf, hb] at hrun
    · intro hgray
      simp [run, ht, hf, hgray]
  · intro h
    rw [is_grayscale_iff]
    intro p hp
    obtain ⟨h1, h2⟩ := h p hp
    unfold diffN
    omega
  · intro p hp hd
    exact (is_grayscale_eq_false_iff g tol).mpr ⟨p, hp, Or.inl (by omega)⟩
  · intro g2 hperm
    unfold is_grayscale
    rw [perm_any_eq _ _ _ hperm]

/-- C6: during dithering every neighbor coordinate outside
`[0, width) × [0, height)` is skipped (no write, grid unchanged); in
particular the `x - 1` neighbor at `x = 0`, computed by `u32` wrapping
subtraction, wraps to `2^32 - 1` and is always rejected by the bounds check
(the grid width being a `u32`), and the pass never changes the grid's
dimensions or pixel count. -/
theorem C6_boundary_skip (g : PixelGrid) (eR eG eB factor : ℚ) (x y levels : ℕ)
    (hw : g.width < U32MOD) (hoob : ¬(x < g.width ∧ y < g.height)) :
    distribute g eR eG eB x y factor = g ∧
    distribute g eR eG eB (wsub1 0) y factor = g ∧
    (apply_dither g levels).width = g.width ∧
    (apply_dither g levels).height = g.height ∧
    (apply_dither g levels).data.length = g.data.length := by
  refine ⟨?_, ?_, dither_fold_width levels (scanCoords g.width g.height) g,
    dither_fold_height levels (scanCoords g.width g.height) g,
    dither_fold_length levels (scanCoords g.width g.height) g⟩
  · unfold distribute
    rw [if_neg hoob]
  · unfold distribute
    rw [if_neg]
    intro hcon
    have hx : wsub1 0 = U32MOD - 1 := by
      unfold wsub1
      exact Nat.mod_eq_of_lt (by unfold U32MOD; omega)
    rw [hx] at hcon
    unfold U32MOD at hcon hw
    omega

/-- C7: applying the Thresholder twice with the same threshold yields exactly
the grid obtained by applying it once (its binary output re-thresholds to
itself). -/
theorem C7_threshold_idempotent (g : PixelGrid) (t : ℕ) (hwf : wfRange g) :
    apply_threshold (apply_threshold g t) t = apply_threshold g t := by
  unfold apply_threshold
  congr 1
  rw [List.map_map]
  apply List.map_congr_left
  intro p hp
  exact thresholdPixel_idem t p (hwf p hp)

/-- C8: after thresholding, after any (also partial) dither pass, after any
single error-diffusion write, and after noise injection with arbitrary sigma
and arbitrary draws, every stored channel of every pixel is an integer in
`[0, 255]` — every value is clamped before being stored. -/
theorem C8_range_invariant (g : PixelGrid) (hwf : wfRange g) (t levels : ℕ)
    (sigma : ℚ) (z : ℕ → ℚ) (cs : List (ℕ × ℕ)) (eR eG eB factor : ℚ) (x y : ℕ) :
    wfRange (apply_threshold g t) ∧
    wfRange (dither_fold levels cs g) ∧
    wfRange (distribute (dither_fold levels cs g) eR eG eB x y factor) ∧
    wfRange (apply_dither g levels) ∧
    wfRange (apply_noise g sigma z) :=
  ⟨wfRange_apply_threshold g t,
   wfRange_dither_fold levels cs g hwf,
   wfRange_distribute _ eR eG eB x y factor (wfRange_dither_fold levels cs g hwf),
   wfRange_dither_fold levels (scanCoords g.width g.height) g hwf,
   wfRange_apply_noise g sigma z⟩

/-- C9: noise injection with `sigma = 0` is the identity on every well-formed
grid, whatever the underlying standard-normal draws are (the `Normal(0, 0)`
sample is `0 * z = 0`). -/
theorem C9_zero_sigma_identity (g : PixelGrid) (z : ℕ → ℚ) (hwf : wfRange g)
    (hdims : wfDims g) : apply_noise g 0 z = g := by
  have hF : ∀ i ∈ List.range g.data.length,
      (fun i =>
        let p := g.data.getD i ⟨0, 0, 0⟩
        (⟨noiseCh 0 p.r (z (3 * i)),
          noiseCh 0 p.g (z (3 * i + 1)),
          noiseCh 0 p.b (z (3 * i + 2))⟩ : Pixel)) i = g.data.getD i ⟨0, 0, 0⟩ := by
    intro i hi
    have hilen : i < g.data.length := List.mem_range.mp hi
    have hmem : g.data.getD i ⟨0, 0, 0⟩ ∈ g.data := by
      rw [List.getD_eq_getElem _ _ hilen]
      exact List.getElem_mem hilen
    obtain ⟨h1, h2, h3⟩ := hwf _ hmem
    simp only
    rw [noiseCh_zero _ h1, noiseCh_zero _ h2, noiseCh_zero _ h3]
  have hdata : (List.range (g.width * g.height)).map
      (fun i =>
        let p := g.data.getD i ⟨0, 0, 0⟩
        (⟨noiseCh 0 p.r (z (3 * i)),
          noiseCh 0 p.g (z (3 * i + 1)),
          noiseCh 0 p.b (z (3 * i + 2))⟩ : Pixel)) = g.data := by
    unfold wfDims at hdims
    rw [← hdims, List.map_congr_left hF, range_map_getD]
  unfold apply_noise
  rw [hdata]

/-- C1 (amended): when destructive/dither mode is selected (and threshold mode
is not), the dither transform runs, the degrade pass is skipped, and noise
injection is always performed afterwards: the final output equals
`apply_noise` applied to the result of `apply_dither` (the claim's
"no noise injection afterwards" is refuted by `C1_counterexample`). -/
theorem C1_dither_then_noise (degrade : ℚ → ℚ → PixelGrid → PixelGrid)
    (args : Args) (g : PixelGrid) (z : ℕ → ℚ) (h1 : args.threshold_mode = false)
    (h2 : args.destructive = true) (h3 : 0 ≤ args.sigma) :
    run degrade args g z =
      Except.ok (apply_noise (apply_dither g args.levels) args.sigma z) :=
  run_destructive_eq degrade args g z h1 h2 h3

/-- C1 counterexample: in destructive mode (levels 2, default sigma 30) on a
1-by-1 gray-200 grid, a run whose standard-normal draws are all `-10` outputs
the all-black grid, while `apply_dither` alone outputs the all-white grid —
noise injection did run after dithering, so dither mode is not exclusive of
noise injection. -/
theorem C1_counterexample :
    run idDegrade (argsDither 2) g200 (zConst (-10)) = Except.ok gZero ∧
    apply_dither g200 2 = gWhite ∧ gZero ≠ gWhite :=
  ⟨rfl, rfl, by decide⟩

theorem C1_witness :
    run idDegrade (argsDither 2) g200 (zConst (-10)) =
      Except.ok (apply_noise (apply_dither g200 2) 30 (zConst (-10))) :=
  C1_dither_then_noise idDegrade (argsDither 2) g200 (zConst (-10)) rfl rfl (by decide)

/-- C2 (amended): a negative sigma is rejected by `Normal::new` with an error
before any output is produced; but the ditherer performs no levels
validation: `levels = 1` is accepted, proceeds without error and quantizes
the grid (the claim's `InvalidArgument` for `levels < 2` is refuted by
`C2_counterexample`). -/
theorem C2_sigma_rejected_levels_not (degrade : ℚ → ℚ → PixelGrid → PixelGrid)
    (args : Args) (g : PixelGrid) (z : ℕ → ℚ) (h1 : args.threshold_mode = false) :
    (args.sigma < 0 → run degrade args g z = Except.error sigmaRejectMsg) ∧
    (args.destructive = true → args.levels = 1 → 0 ≤ args.sigma →
      run degrade args g z = Except.ok (apply_noise (apply_dither g 1) args.sigma z)) := by
  constructor
  · intro hneg
    simp [run, h1, hneg]
  · intro hd hl hs
    rw [run_destructive_eq degrade args g z h1 hd hs, hl]

/-- C2 counterexample: with `levels = 1` the pipeline does not fail with an
`InvalidArgument`: it returns `Ok` and the grid has been mutated (the `f32`
source computes `step = +∞`, the quantization produces `NaN`, and `NaN as u8`
stores `0`; on this 1-by-1 grid no other value is consulted, and the rational
model stores the same `0`). -/
theorem C2_counterexample :
    run idDegrade (argsDither 1) g100 (zConst 0) = Except.ok gZero ∧
    apply_dither g100 1 = gZero ∧ gZero ≠ g100 :=
  ⟨rfl, rfl, by decide⟩

theorem C2_witness :
    run idDegrade (argsNoise (-1)) g100 (zConst 0) = Except.error sigmaRejectMsg ∧
    run idDegrade (argsDither 1) g100 (zConst 0) =
      Except.ok (apply_noise (apply_dither g100 1) 30 (zConst 0)) :=
  ⟨(C2_sigma_rejected_levels_not idDegrade (argsNoise (-1)) g100 (zConst 0) rfl).1
      (by decide),
   (C2_sigma_rejected_levels_not idDegrade (argsDither 1) g100 (zConst 0) rfl).2
      rfl rfl (by decide)⟩

/-- C3 counterexample: dithering the 1-by-1 gray-100 grid with `levels = 3`
stores the channel value 127, but the claim's alphabet
`{round(k * 255 / 2) : k = 0, 1, 2}` is `{0, 128, 255}`, which does not
contain 127 (the stored value is the truncation of `1 * 127.5`, not its
rounding). -/
theorem C3_counterexample :
    apply_dither g100 3 = ⟨1, 1, [⟨127, 127, 127⟩]⟩ ∧
    (qround ((0 * 255 : ℚ) / 2)).toNat = 0 ∧
    (qround ((1 * 255 : ℚ) / 2)).toNat = 128 ∧
    (qround ((2 * 255 : ℚ) / 2)).toNat = 255 ∧
    (127 : ℕ) ≠ 0 ∧ (127 : ℕ) ≠ 128 ∧ (127 : ℕ) ≠ 255 :=
  ⟨rfl, by decide, by decide, by decide, by decide, by decide, by decide⟩

theorem C3_witness :
    ∃ k, k ≤ 2 ∧ (127 : ℕ) = k * 255 / 2 :=
  (C3_dither_alphabet g100 3 (by decide) (by decide) (by decide)
    ⟨127, 127, 127⟩ (by decide)).1

theorem C4_witness :
    (apply_threshold g200 128).data.getD 0 ⟨0, 0, 0⟩ = ⟨255, 255, 255⟩ ∧
    (apply_threshold gGray128 128).data.getD 0 ⟨0, 0, 0⟩ = ⟨0, 0, 0⟩ :=
  ⟨(C4_threshold_formula g200 128 0 (by decide)).1,
   (C4_threshold_formula gGray128 128 0 (by decide)).2 (by decide)⟩

theorem C5_witness :
    run idDegrade argsBW gRed (zConst 0) = Except.error grayRejectMsg ∧
    is_grayscale gGray128 30 = true ∧
    is_grayscale gC31 30 = false ∧
    is_grayscale gPerm1 7 = is_grayscale gPerm2 7 :=
  ⟨((C5_grayscale_guard gRed 30 idDegrade argsBW (zConst 0)).1 rfl rfl).mpr
      ⟨⟨255, 0, 0⟩, by decide, by decide⟩,
   (C5_grayscale_guard gGray128 30 idDegrade argsBW (zConst 0)).2.1 (by decide),
   (C5_grayscale_guard gC31 30 idDegrade argsBW (zConst 0)).2.2.1
      ⟨31, 0, 0⟩ (by decide) (by decide),
   (C5_grayscale_guard gPerm1 7 idDegrade argsBW (zConst 0)).2.2.2 gPerm2 (by decide)⟩

theorem C6_witness :
    distribute g200 1 1 1 5 0 (7/16) = g200 ∧
    distribute g200 1 1 1 (wsub1 0) 0 (7/16) = g200 ∧
    (apply_dither g200 2).width = g200.width ∧
    (apply_dither g200 2).height = g200.height ∧
    (apply_dither g200 2).data.length = g200.data.length :=
  C6_boundary_skip g200 1 1 1 (7/16) 5 0 2 (by decide) (by decide)

theorem C7_witness :
    apply_threshold (apply_threshold g200 128) 128 = apply_threshold g200 128 :=
  C7_threshold_idempotent g200 128 (by decide)

theorem C8_witness :
    wfRange (apply_threshold g200 128) ∧
    wfRange (dither_fold 2 [(0, 0)] g200) ∧
    wfRange (distribute (dither_fold 2 [(0, 0)] g200) (-55) (-55) (-55) 1 0 (7/16)) ∧
    wfRange (apply_dither g200 2) ∧
    wfRange (apply_noise g200 1000000 (zConst 1000000)) :=
  C8_range_invariant g200 (by decide) 128 2 1000000 (zConst 1000000) [(0, 0)]
    (-55) (-55) (-55) (7/16) 1 0

theorem C9_witness : apply_noise g200 0 (zConst 5) = g200 :=
  C9_zero_sigma_identity g200 (zConst 5) (by decide) (by decide)

/-- C10: if both the destructive and the aggressive flag are set, the
destructive branch takes precedence: the resize/blur degrade pass is skipped
entirely (the run does not depend on the degrader at all) and the outcome is
exactly that of a run with the aggressive flag cleared. -/
theorem C10_destructive_precedence (d1 d2 : ℚ → ℚ → PixelGrid → PixelGrid)
    (args : Args) (g : PixelGrid) (z : ℕ → ℚ)
    (hd : args.destructive = true) (ha : args.aggressive = true) :
    run d1 args g z = run d2 { args with aggressive := false } g z := by
  obtain ⟨s, ag, bs, rs, de, lv, tm, th, fb⟩ := args
  simp only at hd ha
  subst hd
  subst ha
  by_cases ht : tm
  · simp [run, ht]
  · simp [run, ht]

theorem C10_witness :
    run idDegrade argsBoth g200 (zConst 0) =
      run constWhiteDegrade { argsBoth with aggressive := false } g200 (zConst 0) :=
  C10_destructive_precedence idDegrade constWhiteDegrade argsBoth g200 (zConst 0) rfl rfl

end SynthID
